import Mathlib

/-!
Verification of the miner/user protocol of the accumulator-demo ledger
simulation, as a shallow embedding of `src/simulation/miner.rs` and
`src/simulation/user.rs`.

The accumulator crate, the data-model module (`state.rs`), the helper module
(`util.rs`) and the bridge message types are external to the provided sources;
they are modelled from the specification's interface description (there the
accumulator is "a value representing a commitment to a set of elements").  The
commitment is modelled extensionally: an accumulator snapshot is the multiset
of elements it commits to (the group product of prime exponents becomes a
multiset union), and a batch membership proof carries its witness
co-accumulator, verification being the defining product equation.
-/

set_option autoImplicit false

namespace AccDemo

/-- Modelled from the spec: the error type of the external accumulator crate.
Deletion "fails if any witness does not verify against the current snapshot"
(`BadWitness`); the underlying batch deletion also cannot combine witnesses for
duplicate elements (`InputsNotCoprime`). -/
inductive AccError where
  | BadWitness
  | InputsNotCoprime
  deriving DecidableEq, Repr

/-- Modelled from the spec: a batch membership proof as produced by the external
accumulator crate.  The embedded `witness` is the co-accumulator against which
verification multiplies the proven elements. -/
structure MembershipProof (T : Type) where
  witness : Multiset T
  deriving DecidableEq

/-- Modelled from the spec: `verify_membership_batch(elements, proof)` of the
accumulator capability — "checks that all elements are attested present by
`proof` against the snapshot it was called on".  In the extensional model the
check is that the proof's witness together with the elements recomposes the
snapshot. -/
def verify_membership_batch {T : Type} [DecidableEq T] (acc : Multiset T)
    (elems : List T) (p : MembershipProof T) : Bool :=
  decide (p.witness + Multiset.ofList elems = acc)

/-- Modelled from the spec: `delete_with_proof(elements_with_witnesses)` of the
accumulator capability — "removes all elements given their current membership
witnesses; fails if any witness does not verify against the current snapshot".
A supplied witness verifies when it recomposes the current snapshot together
with its element.  Batch deletion of a duplicated element fails in the crate
(witnesses cannot be combined for non-coprime exponents). -/
def delete_with_proof {T : Type} [DecidableEq T] (acc : Multiset T)
    (elem_witnesses : List (T × Multiset T)) :
    Except AccError (Multiset T × MembershipProof T) :=
  if (elem_witnesses.map Prod.fst).Nodup then
    if ∀ ew ∈ elem_witnesses, ew.2 + {ew.1} = acc then
      Except.ok (acc - Multiset.ofList (elem_witnesses.map Prod.fst),
        ⟨acc - Multiset.ofList (elem_witnesses.map Prod.fst)⟩)
    else Except.error AccError.BadWitness
  else Except.error AccError.InputsNotCoprime

/-- Modelled from the spec: `add_with_proof(elements)` of the accumulator
capability — "adds all elements, returns updated snapshot and a proof usable to
verify membership of those elements against the new snapshot".  The proof's
witness is the pre-addition snapshot. -/
def add_with_proof {T : Type} (acc : Multiset T) (elems : List T) :
    Multiset T × MembershipProof T :=
  (acc + Multiset.ofList elems, ⟨acc⟩)

/-- Modelled from the spec: `Transaction` from `state.rs` — "outputs_created:
ordered sequence of Utxo, inputs_spent: ordered sequence of (Utxo, membership
witness)", with the field names used by `miner.rs`/`user.rs`; equality is by
content.  The element type `T` abstracts `Utxo` as in the Rust generics. -/
structure Transaction (T : Type) where
  utxos_created : List T
  utxos_spent_with_witnesses : List (T × Multiset T)
  deriving DecidableEq

/-- Modelled from the spec: `Block` from `state.rs`, with the field names used
by `miner.rs`: height, full transaction list, post-block accumulator `acc_new`,
and the two batch membership proofs. -/
structure Block (T : Type) where
  height : Nat
  transactions : List (Transaction T)
  acc_new : Multiset T
  proof_added : MembershipProof T
  proof_deleted : MembershipProof T
  deriving DecidableEq

/-- The miner state of `miner.rs`: accumulator snapshot, block height
(`u64`, starting at 0), and the deduplicated pending-transaction pool. -/
structure Miner (T : Type) where
  acc : Multiset T
  block_height : Nat
  pending_transactions : List (Transaction T)
  deriving DecidableEq

deriving instance DecidableEq for Except

/-- Modelled from the spec: `util::elems_from_transactions` — "computes the set
of outputs created and outputs spent across all pooled transactions (outputs
spent are extracted with their caller-supplied witnesses)". -/
def elems_from_transactions {T : Type} (txs : List (Transaction T)) :
    List T × List (T × Multiset T) :=
  ((txs.map (fun tx => tx.utxos_created)).flatten,
   (txs.map (fun tx => tx.utxos_spent_with_witnesses)).flatten)

/-- Embedding of `Miner::add_transaction` (miner.rs lines 74–80): push the
transaction onto the pool unless a structurally equal one is already present. -/
def add_transaction {T : Type} [DecidableEq T] (m : Miner T)
    (transaction : Transaction T) : Miner T :=
  if transaction ∈ m.pending_transactions then m
  else { m with pending_transactions := m.pending_transactions ++ [transaction] }

/-- Embedding of `Miner::forge_block` (miner.rs lines 82–107): delete the
pooled spent outputs (with their supplied witnesses) from a clone of the
current accumulator, add the pooled created outputs to the post-deletion
accumulator, and assemble a block at `block_height + 1`; a deletion failure is
propagated as the error. -/
def forge_block {T : Type} [DecidableEq T] (m : Miner T) :
    Except AccError (Block T) :=
  match delete_with_proof m.acc (elems_from_transactions m.pending_transactions).2 with
  | Except.error e => Except.error e
  | Except.ok wp =>
      Except.ok
        { height := m.block_height + 1
          transactions := m.pending_transactions
          acc_new := (add_with_proof wp.1 (elems_from_transactions m.pending_transactions).1).1
          proof_added := (add_with_proof wp.1 (elems_from_transactions m.pending_transactions).1).2
          proof_deleted := wp.2 }

/-- Embedding of `Miner::validate_block` (miner.rs lines 109–131).  A block
whose height is not `block_height + 1` is skipped without effect.  Otherwise
the created/spent outputs are recomputed from the block's transactions and the
three `assert!` checks are run; `none` models the panic of a failed assertion,
while on success the accumulator is replaced by `acc_new`, the height is set to
the block's height, and the pool is cleared. -/
def validate_block {T : Type} [DecidableEq T] (m : Miner T) (b : Block T) :
    Option (Miner T) :=
  if b.height ≠ m.block_height + 1 then
    some m
  else
    if verify_membership_batch m.acc
          ((elems_from_transactions b.transactions).2.map Prod.fst) b.proof_deleted = true ∧
        verify_membership_batch b.acc_new
          (elems_from_transactions b.transactions).1 b.proof_added = true ∧
        b.proof_deleted.witness = b.proof_added.witness then
      some { acc := b.acc_new, block_height := b.height, pending_transactions := [] }
    else
      none

/-- One iteration of the leader loop in `Miner::start` (miner.rs lines 58–68):
the leader calls `forge_block` through the locked reference (`&self`, so the
miner state is returned untouched) and on success broadcasts the block; on
failure it logs and keeps its state. -/
def leader_tick {T : Type} [DecidableEq T] (m : Miner T) :
    Miner T × Option (Block T) :=
  match forge_block m with
  | Except.ok b => (m, some b)
  | Except.error _ => (m, none)

/-- A sequence of transaction submissions delivered to one miner, as performed
by the transaction processor thread of `Miner::start`. -/
def submit_all {T : Type} [DecidableEq T] (m : Miner T)
    (txs : List (Transaction T)) : Miner T :=
  txs.foldl add_transaction m

/-- Modelled from the spec: `Utxo` from `state.rs` — an opaque unique
identifier plus the owner's user id (the `Uuid` is abstracted as a number). -/
structure Utxo where
  id : Nat
  user_id : Nat
  deriving DecidableEq

/-- Modelled from the spec: the bridge's per-user update notification —
"{ outputs_added, outputs_removed }", with the field names used by
`user.rs`. -/
structure UserUpdate where
  utxos_deleted : List Utxo
  utxos_added : List Utxo
  deriving DecidableEq

/-- A linear order on outputs (through a pairing of the two identifier
fields), used only to make the hash set's unspecified iteration order a
concrete executable choice. -/
instance : LinearOrder Utxo :=
  LinearOrder.lift' (fun u => Nat.pair u.id u.user_id) (by
    intro a b h
    obtain ⟨h1, h2⟩ := Nat.pair_eq_pair.mp h
    cases a
    cases b
    simp_all)

/-- Embedding of `User::update` (user.rs lines 113–120): remove each deleted
output from the UTXO set (a hash set, modelled as a `Finset`), then insert each
added output. -/
def User.update (utxo_set : Finset Utxo) (up : UserUpdate) : Finset Utxo :=
  up.utxos_added.foldl (fun s u => insert u s)
    (up.utxos_deleted.foldl (fun s u => s.erase u) utxo_set)

/-- Embedding of `User::get_input_for_transaction` (user.rs lines 109–111):
take an element of the UTXO set — the hash set's iteration order is
unspecified, modelled here by the concrete choice of the least element; `none`
models the `unwrap` panic on an empty set. -/
def User.get_input_for_transaction (utxo_set : Finset Utxo) : Option Utxo :=
  if h : utxo_set.Nonempty then some (utxo_set.min' h) else none

/-- The concrete scenario of the spec: one transaction spending `U1` (element
`1`, whose membership witness in the accumulator `{1}` is the empty
co-accumulator) and creating `U2, U3` (elements `2` and `3`). -/
def txC1 : Transaction Nat :=
  { utxos_created := [2, 3], utxos_spent_with_witnesses := [(1, 0)] }

/-- The concrete scenario of the spec: a miner at height 0 whose accumulator
contains `U1` and whose pool holds `txC1`. -/
def mC1 : Miner Nat :=
  { acc := {1}, block_height := 0, pending_transactions := [txC1] }

/-- The block that `forge_block` produces in the concrete scenario: height 1,
post-block accumulator `{2, 3}`, both proofs carrying the post-deletion
(empty) co-accumulator. -/
def bC1 : Block Nat :=
  { height := 1
    transactions := [txC1]
    acc_new := {2, 3}
    proof_added := ⟨0⟩
    proof_deleted := ⟨0⟩ }

/-- A corrupted variant of `bC1` whose deletion proof does not verify against
the accumulator `{1}`. -/
def bC6 : Block Nat :=
  { height := 1
    transactions := [txC1]
    acc_new := {2, 3}
    proof_added := ⟨0⟩
    proof_deleted := ⟨{7}⟩ }

/-- Inversion of a successful accumulator deletion: the deleted elements were
all present (so they embed in the snapshot), and the returned co-accumulator
and proof witness are the snapshot less the deleted elements. -/
lemma delete_with_proof_ok {T : Type} [DecidableEq T] {acc : Multiset T}
    {l : List (T × Multiset T)} {wp : Multiset T × MembershipProof T}
    (h : delete_with_proof acc l = Except.ok wp) :
    Multiset.ofList (l.map Prod.fst) ≤ acc ∧
    wp.1 = acc - Multiset.ofList (l.map Prod.fst) ∧
    wp.2 = ⟨acc - Multiset.ofList (l.map Prod.fst)⟩ := by
  unfold delete_with_proof at h
  split at h
  case isTrue hnd =>
    split at h
    case isTrue hall =>
      injection h with h
      refine ⟨?_, ?_, ?_⟩
      · rw [Multiset.le_iff_subset (Multiset.coe_nodup.mpr hnd)]
        intro x hx
        obtain ⟨ew, hew, rfl⟩ := List.mem_map.mp (Multiset.mem_coe.mp hx)
        have hv := hall ew hew
        rw [← hv]
        simp
      · rw [← h]
      · rw [← h]
    case isFalse => exact absurd h (by simp)
  case isFalse => exact absurd h (by simp)

/-- A block successfully forged from miner state `mA` is accepted by
`validate_block` on any miner whose accumulator and height agree with `mA`'s,
yielding the post-block accumulator at the block's height with an empty
pool. -/
lemma validate_forged {T : Type} [DecidableEq T] (mA m : Miner T) (b : Block T)
    (hacc : m.acc = mA.acc) (hh : m.block_height = mA.block_height)
    (hf : forge_block mA = Except.ok b) :
    validate_block m b =
      some { acc := b.acc_new, block_height := b.height,
             pending_transactions := [] } := by
  cases hdel : delete_with_proof mA.acc
      (elems_from_transactions mA.pending_transactions).2 with
  | error e => rw [forge_block, hdel] at hf; exact absurd hf (by simp)
  | ok wp =>
    obtain ⟨hle, hw1, hw2⟩ := delete_with_proof_ok hdel
    rw [forge_block, hdel] at hf
    injection hf with hf
    subst hf
    unfold validate_block
    rw [if_neg (by simp [hh])]
    rw [if_pos]
    refine ⟨?_, ?_, ?_⟩
    · simp only [verify_membership_batch, hw2, hacc, decide_eq_true_eq]
      exact tsub_add_cancel_of_le hle
    · simp [verify_membership_batch, add_with_proof]
    · simp [add_with_proof, hw1, hw2]

/-- Claim C1: a block returned by `forge_block` on miner A is accepted by
`validate_block` on miner B whenever B starts from the same accumulator
snapshot and block height; A (validating its own block) and B end in the same
state — the block's post-state accumulator, height `block_height + 1`, and an
empty pool. -/
theorem forge_validate_agreement {T : Type} [DecidableEq T]
    (mA mB : Miner T) (b : Block T)
    (hacc : mB.acc = mA.acc) (hh : mB.block_height = mA.block_height)
    (hf : forge_block mA = Except.ok b) :
    validate_block mA b =
      some { acc := b.acc_new, block_height := b.height,
             pending_transactions := [] } ∧
    validate_block mB b =
      some { acc := b.acc_new, block_height := b.height,
             pending_transactions := [] } ∧
    b.height = mA.block_height + 1 := by
  refine ⟨validate_forged mA mA b rfl rfl hf, validate_forged mA mB b hacc hh hf, ?_⟩
  cases hdel : delete_with_proof mA.acc
      (elems_from_transactions mA.pending_transactions).2 with
  | error e => rw [forge_block, hdel] at hf; exact absurd hf (by simp)
  | ok wp =>
    rw [forge_block, hdel] at hf
    injection hf with hf
    rw [← hf]

/-- Claim C1, witness: in the concrete scenario — miner at height 0,
accumulator `{U1}`, pool with one transaction spending `U1` and creating
`{U2, U3}` — `forge_block` yields a block at height 1, and `validate_block` of
that block on a fresh miner with the same starting state succeeds, advances the
height to 1, and leaves the pool empty. -/
theorem forge_validate_agreement_witness :
    (forge_block mC1 = Except.ok bC1) ∧
    (validate_block mC1 bC1 =
      some { acc := bC1.acc_new, block_height := bC1.height,
             pending_transactions := [] } ∧
    validate_block mC1 bC1 =
      some { acc := bC1.acc_new, block_height := bC1.height,
             pending_transactions := [] } ∧
    bC1.height = mC1.block_height + 1) :=
  ⟨by decide, forge_validate_agreement mC1 mC1 bC1 rfl rfl (by decide)⟩

/-- Claim C2: `validate_block` on a block whose height is not
`block_height + 1` returns the miner state unchanged (accumulator, height and
pool all identical), silently skipping duplicate or stale blocks. -/
theorem validate_block_height_gate {T : Type} [DecidableEq T]
    (m : Miner T) (b : Block T) (h : b.height ≠ m.block_height + 1) :
    validate_block m b = some m := by
  unfold validate_block
  rw [if_pos h]

/-- Claim C2, witness: a block at height 6 received by a miner at height 0 is
skipped without effect. -/
theorem validate_block_height_gate_witness :
    bC1.height + 5 ≠ mC1.block_height + 1 ∧
    validate_block mC1 { bC1 with height := bC1.height + 5 } = some mC1 :=
  ⟨by decide, validate_block_height_gate mC1 { bC1 with height := bC1.height + 5 } (by decide)⟩

/-- Claim C3: a block at height `block_height + 1` passing all three validation
checks atomically replaces the accumulator with the block's post-state
accumulator, sets the height to the block's height, and clears the pool
unconditionally. -/
theorem validate_block_applies {T : Type} [DecidableEq T]
    (m : Miner T) (b : Block T)
    (hh : b.height = m.block_height + 1)
    (hdel : verify_membership_batch m.acc
      ((elems_from_transactions b.transactions).2.map Prod.fst) b.proof_deleted = true)
    (hadd : verify_membership_batch b.acc_new
      (elems_from_transactions b.transactions).1 b.proof_added = true)
    (hw : b.proof_deleted.witness = b.proof_added.witness) :
    validate_block m b =
      some { acc := b.acc_new, block_height := b.height,
             pending_transactions := [] } := by
  unfold validate_block
  rw [if_neg (by simp [hh]), if_pos ⟨hdel, hadd, hw⟩]

/-- Claim C3, witness: the concrete scenario block passes all checks and is
applied, clearing the pool. -/
theorem validate_block_applies_witness :
    (bC1.height = mC1.block_height + 1 ∧
      verify_membership_batch mC1.acc
        ((elems_from_transactions bC1.transactions).2.map Prod.fst) bC1.proof_deleted = true ∧
      verify_membership_batch bC1.acc_new
        (elems_from_transactions bC1.transactions).1 bC1.proof_added = true ∧
      bC1.proof_deleted.witness = bC1.proof_added.witness) ∧
    validate_block mC1 bC1 =
      some { acc := bC1.acc_new, block_height := bC1.height,
             pending_transactions := [] } :=
  ⟨by decide, validate_block_applies mC1 bC1 (by decide) (by decide) (by decide) (by decide)⟩

/-- Claim C4: `forge_block` returns an accumulator error exactly when the
deletion of the pooled spent outputs fails, and the miner's own state is
unchanged by a forging attempt (the leader-loop iteration returns the state
untouched). -/
theorem forge_block_error_iff {T : Type} [DecidableEq T] (m : Miner T) :
    ((∃ e, forge_block m = Except.error e) ↔
      (∃ e, delete_with_proof m.acc
        (elems_from_transactions m.pending_transactions).2 = Except.error e)) ∧
    (leader_tick m).1 = m := by
  constructor
  · cases hdel : delete_with_proof m.acc
        (elems_from_transactions m.pending_transactions).2 with
    | error e => simp [forge_block, hdel]
    | ok wp => simp [forge_block, hdel]
  · unfold leader_tick
    cases forge_block m <;> rfl

/-- Claim C5: a successfully forged block has height `block_height + 1`,
carries the full pooled-transaction list, its deletion proof comes from
deleting the pooled spent outputs (with their supplied witnesses) from the
current accumulator, and its post-block accumulator and addition proof come
from adding the pooled created outputs to the post-deletion accumulator. -/
theorem forge_block_structure {T : Type} [DecidableEq T]
    (m : Miner T) (b : Block T) (hf : forge_block m = Except.ok b) :
    b.height = m.block_height + 1 ∧
    b.transactions = m.pending_transactions ∧
    ∃ witness_deleted,
      delete_with_proof m.acc (elems_from_transactions m.pending_transactions).2 =
        Except.ok (witness_deleted, b.proof_deleted) ∧
      (b.acc_new, b.proof_added) =
        add_with_proof witness_deleted
          (elems_from_transactions m.pending_transactions).1 := by
  cases hdel : delete_with_proof m.acc
      (elems_from_transactions m.pending_transactions).2 with
  | error e => rw [forge_block, hdel] at hf; exact absurd hf (by simp)
  | ok wp =>
    rw [forge_block, hdel] at hf
    injection hf with hf
    subst hf
    exact ⟨rfl, rfl, wp.1, by simp [hdel], by simp [add_with_proof]⟩

/-- Claim C5, witness: the concrete scenario block exhibits the stated
structure. -/
theorem forge_block_structure_witness :
    (forge_block mC1 = Except.ok bC1) ∧
    (bC1.height = mC1.block_height + 1 ∧
    bC1.transactions = mC1.pending_transactions ∧
    ∃ witness_deleted,
      delete_with_proof mC1.acc (elems_from_transactions mC1.pending_transactions).2 =
        Except.ok (witness_deleted, bC1.proof_deleted) ∧
      (bC1.acc_new, bC1.proof_added) =
        add_with_proof witness_deleted
          (elems_from_transactions mC1.pending_transactions).1) :=
  ⟨by decide, forge_block_structure mC1 bC1 (by decide)⟩

/-- Claim C6: for a block at the expected next height, `validate_block` ends in
the assertion-failure state (`none`, modelling the panic — the accumulator and
height are never updated from such a block) exactly when one of the three
recomputed checks fails: batch membership of the spent outputs in the current
accumulator under the block's deletion proof, batch membership of the created
outputs in the block's post-state accumulator under its addition proof, or
equality of the two proofs' embedded witnesses. -/
theorem validate_block_checks {T : Type} [DecidableEq T]
    (m : Miner T) (b : Block T) (hh : b.height = m.block_height + 1) :
    validate_block m b = none ↔
      ¬(verify_membership_batch m.acc
          ((elems_from_transactions b.transactions).2.map Prod.fst) b.proof_deleted = true ∧
        verify_membership_batch b.acc_new
          (elems_from_transactions b.transactions).1 b.proof_added = true ∧
        b.proof_deleted.witness = b.proof_added.witness) := by
  unfold validate_block
  rw [if_neg (by simp [hh])]
  split
  case isTrue hc => simpa using hc
  case isFalse hc => simpa using hc

/-- Claim C6, witness: a block at the right height whose deletion proof is
corrupted makes `validate_block` end in the assertion-failure state. -/
theorem validate_block_checks_witness :
    (bC6.height = mC1.block_height + 1) ∧ validate_block mC1 bC6 = none :=
  ⟨by decide, (validate_block_checks mC1 bC6 (by decide)).mpr (by decide)⟩

/-- Nodup is preserved by one pool insertion. -/
lemma add_transaction_nodup {T : Type} [DecidableEq T] (m : Miner T)
    (tx : Transaction T) (h : m.pending_transactions.Nodup) :
    (add_transaction m tx).pending_transactions.Nodup := by
  unfold add_transaction
  split
  · exact h
  case isFalse htx => simp [List.nodup_append, h, htx]

/-- One pool insertion realises insertion into the pool's set of
transactions. -/
lemma add_transaction_toFinset {T : Type} [DecidableEq T] (m : Miner T)
    (tx : Transaction T) :
    (add_transaction m tx).pending_transactions.toFinset =
      insert tx m.pending_transactions.toFinset := by
  unfold add_transaction
  split
  case isTrue htx =>
    rw [Finset.insert_eq_self.mpr (List.mem_toFinset.mpr htx)]
  case isFalse htx =>
    simp [List.toFinset_append]
    ext x
    simp
    tauto

/-- Folding a submission sequence over a duplicate-free pool keeps the pool
duplicate-free, and the resulting pool holds exactly the union of the old pool
and the submitted transactions. -/
lemma submit_all_invariant {T : Type} [DecidableEq T]
    (txs : List (Transaction T)) :
    ∀ m : Miner T, m.pending_transactions.Nodup →
      (submit_all m txs).pending_transactions.Nodup ∧
      (submit_all m txs).pending_transactions.toFinset =
        m.pending_transactions.toFinset ∪ txs.toFinset := by
  induction txs with
  | nil => intro m h; simpa [submit_all]
  | cons tx txs ih =>
    intro m h
    have hstep : submit_all m (tx :: txs) = submit_all (add_transaction m tx) txs := rfl
    obtain ⟨h1, h2⟩ := ih (add_transaction m tx) (add_transaction_nodup m tx h)
    rw [hstep]
    refine ⟨h1, ?_⟩
    rw [h2, add_transaction_toFinset]
    ext x
    simp

/-- Claim C7: starting from an empty pool, any submission sequence leaves the
pool free of structurally equal duplicates; its size equals the number of
distinct transactions submitted (so N pairwise-distinct submissions plus M
resubmissions of pooled transactions give size N); and each individual
submission grows the pool by at most one entry and never shrinks it (and, being
a total function, never errors). -/
theorem submit_transaction_pool_dedup {T : Type} [DecidableEq T]
    (a : Multiset T) (n : Nat) (txs : List (Transaction T)) :
    (submit_all { acc := a, block_height := n, pending_transactions := [] } txs).pending_transactions.Nodup ∧
    (submit_all { acc := a, block_height := n, pending_transactions := [] } txs).pending_transactions.length =
      txs.toFinset.card ∧
    (∀ (m : Miner T) (tx : Transaction T),
      m.pending_transactions.length ≤ (add_transaction m tx).pending_transactions.length ∧
      (add_transaction m tx).pending_transactions.length ≤ m.pending_transactions.length + 1) := by
  obtain ⟨h1, h2⟩ := submit_all_invariant txs
    { acc := a, block_height := n, pending_transactions := [] } (by simp)
  refine ⟨h1, ?_, ?_⟩
  · rw [← List.toFinset_card_of_nodup h1, h2]
    simp
  · intro m tx
    unfold add_transaction
    split
    · exact ⟨le_refl _, Nat.le_succ _⟩
    · simp

/-- Claim C8: applying a confirmed update that removes the spent output `u` and
inserts freshly created outputs `v` and `w` leaves a UTXO set with `u` absent
and both `v` and `w` present. -/
theorem user_update_roundtrip (s : Finset Utxo) (u v w : Utxo)
    (hu : u ∈ s) (hv : v ≠ u) (hw : w ≠ u) :
    u ∉ User.update s { utxos_deleted := [u], utxos_added := [v, w] } ∧
    v ∈ User.update s { utxos_deleted := [u], utxos_added := [v, w] } ∧
    w ∈ User.update s { utxos_deleted := [u], utxos_added := [v, w] } := by
  unfold User.update
  simp only [List.foldl]
  refine ⟨?_, ?_, ?_⟩
  · intro hmem
    rcases Finset.mem_insert.mp hmem with h | hmem2
    · exact hw h.symm
    rcases Finset.mem_insert.mp hmem2 with h | hmem3
    · exact hv h.symm
    · exact (Finset.mem_erase.mp hmem3).1 rfl
  · simp
  · simp

/-- Claim C8, witness: spending output 1 and creating outputs 2 and 3 removes
output 1 and makes outputs 2 and 3 present. -/
theorem user_update_roundtrip_witness :
    ((⟨1, 0⟩ : Utxo) ∈ ({⟨1, 0⟩} : Finset Utxo) ∧ (⟨2, 0⟩ : Utxo) ≠ ⟨1, 0⟩ ∧ (⟨3, 0⟩ : Utxo) ≠ ⟨1, 0⟩) ∧
    ((⟨1, 0⟩ : Utxo) ∉ User.update {⟨1, 0⟩} { utxos_deleted := [⟨1, 0⟩], utxos_added := [⟨2, 0⟩, ⟨3, 0⟩] } ∧
     (⟨2, 0⟩ : Utxo) ∈ User.update {⟨1, 0⟩} { utxos_deleted := [⟨1, 0⟩], utxos_added := [⟨2, 0⟩, ⟨3, 0⟩] } ∧
     (⟨3, 0⟩ : Utxo) ∈ User.update {⟨1, 0⟩} { utxos_deleted := [⟨1, 0⟩], utxos_added := [⟨2, 0⟩, ⟨3, 0⟩] }) :=
  ⟨⟨by decide, by decide, by decide⟩,
    user_update_roundtrip {⟨1, 0⟩} ⟨1, 0⟩ ⟨2, 0⟩ ⟨3, 0⟩ (by decide) (by decide) (by decide)⟩

/-- Claim C9: a leader-loop forging iteration never mutates the miner state —
the state component returned by `leader_tick` equals the input state whether
forging succeeds or fails — and a broadcast block is exactly the value returned
by `forge_block` on that unchanged state. -/
theorem forge_block_no_mutation {T : Type} [DecidableEq T] (m : Miner T) :
    (leader_tick m).1 = m ∧
    ∀ b : Block T, (leader_tick m).2 = some b → forge_block m = Except.ok b := by
  unfold leader_tick
  cases forge_block m with
  | ok b => exact ⟨rfl, by intro b' hb'; injection hb' with hb'; rw [hb']⟩
  | error e => exact ⟨rfl, by intro b' hb'; exact absurd hb' (by simp)⟩

/-- Claim C9, witness: in the concrete scenario the leader-loop iteration
broadcasts exactly the forged block while returning the state untouched. -/
theorem forge_block_no_mutation_witness :
    ((leader_tick mC1).2 = some bC1) ∧ forge_block mC1 = Except.ok bC1 :=
  ⟨by decide, (forge_block_no_mutation mC1).2 bC1 (by decide)⟩

/-- Claim C10: selecting an input for a transaction returns an element of the
UTXO set whenever the set is non-empty, and ends in the panic state (`none`,
modelling the failing `unwrap`) on the empty set. -/
theorem get_input_spec (s : Finset Utxo) :
    (∀ hs : s.Nonempty, ∃ u, User.get_input_for_transaction s = some u ∧ u ∈ s) ∧
    (s = ∅ → User.get_input_for_transaction s = none) := by
  constructor
  · intro hs
    refine ⟨s.min' hs, ?_, s.min'_mem hs⟩
    unfold User.get_input_for_transaction
    rw [dif_pos hs]
  · intro hs
    subst hs
    unfold User.get_input_for_transaction
    rw [dif_neg (by simp)]

/-- Claim C10, witness: on the singleton set the selection returns its
element, and on the empty set it ends in the panic state. -/
theorem get_input_spec_witness :
    (∃ u, User.get_input_for_transaction {(⟨1, 0⟩ : Utxo)} = some u ∧
      u ∈ ({(⟨1, 0⟩ : Utxo)} : Finset Utxo)) ∧
    User.get_input_for_transaction (∅ : Finset Utxo) = none :=
  ⟨(get_input_spec {(⟨1, 0⟩ : Utxo)}).1 ⟨⟨1, 0⟩, by decide⟩,
   (get_input_spec ∅).2 rfl⟩

end AccDemo
